import Mathlib

/-!
Verification of the balance-summary screen of the RB-Exchange repository.

The screen exists in two variants: `src/app/(tabs)/balance.tsx` (namespace
`BalanceTsx` below) and a second copy with average-rate conversion
(namespace `Part000`).  JavaScript numbers are modelled as rationals,
the insertion-ordered JS `Map` as an association list, and the static
`CURRENCIES` table (external to the two files) as a parameter.
-/

/-- The display currency union type `'USD' | 'EUR'`. -/
inductive DisplayCurrency
  | USD
  | EUR
deriving DecidableEq

/-- The transaction type union `'buy' | 'sell'`. -/
inductive TxType
  | buy
  | sell
deriving DecidableEq

/-- A transaction record as consumed by the balance screen. -/
structure Transaction where
  currencyCode : String
  targetCurrency : DisplayCurrency
  type : TxType
  amount : ℚ
  rate : ℚ
deriving DecidableEq

/-- An entry of the static `CURRENCIES` reference table. -/
structure Currency where
  code : String
  name : String
  flagUrl : String
deriving DecidableEq

/-- `Map.prototype.get`, on the association-list model of a JS `Map`. -/
def mapGet {α : Type} (m : List (String × α)) (k : String) : Option α :=
  (m.find? (fun p => p.fst == k)).map Prod.snd

/-- `Map.prototype.set`: replaces in place when the key is present,
appends at the end otherwise (JS `Map` keeps insertion order). -/
def mapSet {α : Type} (m : List (String × α)) (k : String) (v : α) : List (String × α) :=
  match m with
  | [] => [(k, v)]
  | p :: rest => if p.fst == k then (k, v) :: rest else p :: mapSet rest k v

/-- The value stored in `balanceMap` for one source currency code. -/
@[ext] structure BalanceAcc where
  buys : ℚ
  sells : ℚ
  currency : Option Currency
  targetCurrency : DisplayCurrency
deriving DecidableEq

/-- One output row of the `balances` computation. -/
@[ext] structure CurrencyBalance where
  code : String
  buys : ℚ
  sells : ℚ
  currency : Option Currency
  targetCurrency : DisplayCurrency
  netTotal : ℚ
deriving DecidableEq

namespace BalanceTsx

/-- The body of the `transactions.forEach` loop inside the `balances`
memo of `balance.tsx` (lines 20-39): skip transactions whose
`targetCurrency` differs from the selected display currency, otherwise
accumulate `buys`/`sells` into the map entry for `currencyCode`. -/
def step (currencies : List Currency) (displayCurrency : DisplayCurrency)
    (m : List (String × BalanceAcc)) (t : Transaction) : List (String × BalanceAcc) :=
  if t.targetCurrency == displayCurrency then
    let key := t.currencyCode
    let currentBalance := (mapGet m key).getD
      { buys := 0
        sells := 0
        currency := currencies.find? (fun c => c.code == key)
        targetCurrency := t.targetCurrency }
    let updated :=
      match t.type with
      | TxType.buy => { currentBalance with buys := currentBalance.buys + t.amount }
      | TxType.sell => { currentBalance with sells := currentBalance.sells + t.amount }
    mapSet m key updated
  else m

/-- The `balanceMap` accumulated over the whole transaction list. -/
def balanceMap (currencies : List Currency) (displayCurrency : DisplayCurrency)
    (transactions : List Transaction) : List (String × BalanceAcc) :=
  transactions.foldl (step currencies displayCurrency) []

/-- `balances` (balance.tsx lines 17-48): map entries turned into rows;
`netTotal` multiplies `buys - sells` by the rate of the first transaction
whose `currencyCode` and `targetCurrency` match (the JS `?.rate || 0`
yields `0` when the lookup fails, and is otherwise the rate itself). -/
def balances (currencies : List Currency) (displayCurrency : DisplayCurrency)
    (transactions : List Transaction) : List CurrencyBalance :=
  (balanceMap currencies displayCurrency transactions).map (fun p =>
    { code := p.fst
      buys := p.snd.buys
      sells := p.snd.sells
      currency := p.snd.currency
      targetCurrency := p.snd.targetCurrency
      netTotal := (p.snd.buys - p.snd.sells) *
        (((transactions.find? (fun t =>
            t.currencyCode == p.fst && t.targetCurrency == p.snd.targetCurrency)).map
          Transaction.rate).getD 0) })

/-- `totalNetBalanceDZD` (balance.tsx lines 51-56): the reduce over all
transactions of the signed amount times the transaction's own rate. -/
def totalNetBalanceDZD (transactions : List Transaction) : ℚ :=
  transactions.foldl (fun total t =>
    total + (match t.type with
             | TxType.buy => t.amount
             | TxType.sell => -t.amount) * t.rate) 0

end BalanceTsx

/-- `toggleDisplayCurrency` (identical in both variants):
`current === 'USD' ? 'EUR' : 'USD'`. -/
def toggleDisplayCurrency : DisplayCurrency → DisplayCurrency
  | DisplayCurrency.USD => DisplayCurrency.EUR
  | DisplayCurrency.EUR => DisplayCurrency.USD

namespace Part000

/-- The loop body of the `balances` memo of the second variant
(part_000 lines 41-60); textually identical to `BalanceTsx.step`. -/
def step (currencies : List Currency) (displayCurrency : DisplayCurrency)
    (m : List (String × BalanceAcc)) (t : Transaction) : List (String × BalanceAcc) :=
  if t.targetCurrency == displayCurrency then
    let key := t.currencyCode
    let currentBalance := (mapGet m key).getD
      { buys := 0
        sells := 0
        currency := currencies.find? (fun c => c.code == key)
        targetCurrency := t.targetCurrency }
    let updated :=
      match t.type with
      | TxType.buy => { currentBalance with buys := currentBalance.buys + t.amount }
      | TxType.sell => { currentBalance with sells := currentBalance.sells + t.amount }
    mapSet m key updated
  else m

/-- The accumulated map of the second variant. -/
def balanceMap (currencies : List Currency) (displayCurrency : DisplayCurrency)
    (transactions : List Transaction) : List (String × BalanceAcc) :=
  transactions.foldl (step currencies displayCurrency) []

/-- `balances` of the second variant (part_000 lines 38-69). -/
def balances (currencies : List Currency) (displayCurrency : DisplayCurrency)
    (transactions : List Transaction) : List CurrencyBalance :=
  (balanceMap currencies displayCurrency transactions).map (fun p =>
    { code := p.fst
      buys := p.snd.buys
      sells := p.snd.sells
      currency := p.snd.currency
      targetCurrency := p.snd.targetCurrency
      netTotal := (p.snd.buys - p.snd.sells) *
        (((transactions.find? (fun t =>
            t.currencyCode == p.fst && t.targetCurrency == p.snd.targetCurrency)).map
          Transaction.rate).getD 0) })

/-- The result record of the `averageRates` memo (part_000 lines 17-35). -/
structure AverageRates where
  eur : ℚ
  usd : ℚ
deriving DecidableEq

/-- The `transactions.forEach` loop of `averageRates`: push the rate onto
`rates.EUR` when `targetCurrency === 'EUR'`, else onto `rates.USD` when
`targetCurrency === 'USD'`. -/
def collectRates (transactions : List Transaction) : List ℚ × List ℚ :=
  transactions.foldl (fun rates t =>
    if t.targetCurrency == DisplayCurrency.EUR then (rates.fst ++ [t.rate], rates.snd)
    else if t.targetCurrency == DisplayCurrency.USD then (rates.fst, rates.snd ++ [t.rate])
    else rates) ([], [])

/-- `averageRates` (part_000 lines 17-35): arithmetic mean of the collected
rates per target currency, `0` when the list is empty. -/
def averageRates (transactions : List Transaction) : AverageRates :=
  let rates := collectRates transactions
  { eur := if 0 < rates.fst.length then rates.fst.sum / (rates.fst.length : ℚ) else 0
    usd := if 0 < rates.snd.length then rates.snd.sum / (rates.snd.length : ℚ) else 0 }

/-- The result record of the `totalNetBalance` memo: the DZD total and the
entry at the selected display currency key. -/
structure TotalNetBalance where
  dzd : ℚ
  display : ℚ
deriving DecidableEq

/-- `totalNetBalance` (part_000 lines 72-84): the DZD reduce plus the
conversion `rate ? totalDZD / rate : 0` using the average rate of the
selected display currency. -/
def totalNetBalance (displayCurrency : DisplayCurrency) (transactions : List Transaction) :
    TotalNetBalance :=
  let totalDZD := transactions.foldl (fun total t =>
    total + (match t.type with
             | TxType.buy => t.amount
             | TxType.sell => -t.amount) * t.rate) 0
  let rate := match displayCurrency with
    | DisplayCurrency.EUR => (averageRates transactions).eur
    | DisplayCurrency.USD => (averageRates transactions).usd
  { dzd := totalDZD
    display := if rate = 0 then 0 else totalDZD / rate }

end Part000

/-- The net-total color styles `styles.positive` and `styles.negative`. -/
inductive ColorStyle
  | success
  | error
deriving DecidableEq

/-- The style expression `item.netTotal > 0 ? styles.positive : styles.negative`
of `renderBalanceItem` (balance.tsx line 88, part_000 line 116). -/
def netTotalStyle (netTotal : ℚ) : ColorStyle :=
  if netTotal > 0 then ColorStyle.success else ColorStyle.error

/-- A JavaScript runtime error; `typeError` models the TypeError thrown by
a property access on `undefined`. -/
inductive JsError
  | typeError
deriving DecidableEq

/-- The data rendered for one balance row by `renderBalanceItem`. -/
structure RenderedItem where
  flagUri : String
  currencyName : String
  code : String
  buys : ℚ
  sells : ℚ
  net : ℚ
  netStyle : ColorStyle
  formattedIn : DisplayCurrency
deriving DecidableEq

/-- A JS property access `o.f` on a possibly-`undefined` object: throws a
TypeError when the object is `undefined`. -/
def getField (c : Option Currency) (f : Currency → String) : Except JsError String :=
  match c with
  | some cur => Except.ok (f cur)
  | none => Except.error JsError.typeError

/-- `renderBalanceItem` (balance.tsx lines 62-95): reads
`item.currency.flagUrl` and `item.currency.name` (no optional chaining),
shows `buys`, `sells` and `buys - sells` formatted in the display
currency, and colors the net row by `item.netTotal > 0`. -/
def renderBalanceItem (displayCurrency : DisplayCurrency) (item : CurrencyBalance) :
    Except JsError RenderedItem := do
  let flagUri ← getField item.currency Currency.flagUrl
  let currencyName ← getField item.currency Currency.name
  Except.ok
    { flagUri := flagUri
      currencyName := currencyName
      code := item.code
      buys := item.buys
      sells := item.sells
      net := item.buys - item.sells
      netStyle := netTotalStyle item.netTotal
      formattedIn := displayCurrency }

/-- The `FlatList` rendering every balance row in order; the first thrown
TypeError aborts the render. -/
def renderAllItems (displayCurrency : DisplayCurrency) :
    List CurrencyBalance → Except JsError (List RenderedItem)
  | [] => Except.ok []
  | b :: rest => do
    let r ← renderBalanceItem displayCurrency b
    let rs ← renderAllItems displayCurrency rest
    Except.ok (r :: rs)

/-- The part of the screen below the header: the list area is either the
row list or the no-transactions-in-currency message. -/
inductive BalanceArea
  | list (rows : List CurrencyBalance)
  | noTransactionsMessage (d : DisplayCurrency)
deriving DecidableEq

/-- The screen body: the generic empty state, or the summary card (showing
the DZD total) together with a balance area. -/
inductive ScreenBody
  | emptyState
  | withSummary (totalDZD : ℚ) (area : BalanceArea)
deriving DecidableEq

/-- The conditional rendering of `BalanceScreen` (balance.tsx lines
101-146): empty state when `transactions.length` is zero, otherwise the
summary card plus either the `FlatList` (when `balances.length > 0`) or
the "No transactions in ..." message. -/
def renderScreen (currencies : List Currency) (displayCurrency : DisplayCurrency)
    (transactions : List Transaction) : ScreenBody :=
  if 0 < transactions.length then
    ScreenBody.withSummary (BalanceTsx.totalNetBalanceDZD transactions)
      (if 0 < (BalanceTsx.balances currencies displayCurrency transactions).length then
        BalanceArea.list (BalanceTsx.balances currencies displayCurrency transactions)
      else BalanceArea.noTransactionsMessage displayCurrency)
  else ScreenBody.emptyState

/-- The view-local screen state: the transaction list from the history
hook and the `displayCurrency` state variable. -/
structure ScreenState where
  transactions : List Transaction
  displayCurrency : DisplayCurrency
deriving DecidableEq

/-- The effect of pressing the currency selector: `setDisplayCurrency`
with the toggled value; the transaction list is untouched. -/
def toggleAction (s : ScreenState) : ScreenState :=
  { s with displayCurrency := toggleDisplayCurrency s.displayCurrency }

/-! Reference definitions, stated from the specification's wording, against
which the translated code is compared. -/

/-- A transaction matches the selected display currency. -/
def matchesDisplay (d : DisplayCurrency) (t : Transaction) : Bool :=
  t.targetCurrency == d

/-- The transactions whose `targetCurrency` equals the display currency. -/
def matchingTxs (d : DisplayCurrency) (txs : List Transaction) : List Transaction :=
  txs.filter (fun t => matchesDisplay d t)

/-- The amount signed by transaction type: positive for a buy, negative
for a sell. -/
def signedAmount (t : Transaction) : ℚ :=
  match t.type with
  | TxType.buy => t.amount
  | TxType.sell => -t.amount

/-- Append a code unless it was already seen. -/
def insertSeen (acc : List String) (c : String) : List String :=
  if acc.contains c then acc else acc ++ [c]

/-- The distinct source currency codes of the matching transactions, in
first-seen insertion order. -/
def firstSeenCodes (d : DisplayCurrency) (txs : List Transaction) : List String :=
  txs.foldl (fun acc t => if matchesDisplay d t then insertSeen acc t.currencyCode else acc) []

/-- The sum of the amounts of the matching buy transactions with the given
source currency code. -/
def buysSum (d : DisplayCurrency) (code : String) (txs : List Transaction) : ℚ :=
  ((txs.filter (fun t =>
    matchesDisplay d t && t.currencyCode == code && t.type == TxType.buy)).map
      Transaction.amount).sum

/-- The sum of the amounts of the matching sell transactions with the given
source currency code. -/
def sellsSum (d : DisplayCurrency) (code : String) (txs : List Transaction) : ℚ :=
  ((txs.filter (fun t =>
    matchesDisplay d t && t.currencyCode == code && t.type == TxType.sell)).map
      Transaction.amount).sum

/-- The rate of the first transaction whose `currencyCode` and
`targetCurrency` match, `0` when none does. -/
def firstRate (d : DisplayCurrency) (code : String) (txs : List Transaction) : ℚ :=
  ((txs.find? (fun t => t.currencyCode == code && t.targetCurrency == d)).map
    Transaction.rate).getD 0

/-- The reference accumulator value for one source currency code. -/
def refAcc (cs : List Currency) (d : DisplayCurrency) (txs : List Transaction)
    (code : String) : BalanceAcc :=
  { buys := buysSum d code txs
    sells := sellsSum d code txs
    currency := cs.find? (fun c => c.code == code)
    targetCurrency := d }

/-- The reference output row for one source currency code. -/
def refRow (cs : List Currency) (d : DisplayCurrency) (txs : List Transaction)
    (code : String) : CurrencyBalance :=
  { code := code
    buys := buysSum d code txs
    sells := sellsSum d code txs
    currency := cs.find? (fun c => c.code == code)
    targetCurrency := d
    netTotal := (buysSum d code txs - sellsSum d code txs) * firstRate d code txs }

/-! Lemmas about the JS `Map` model. -/

theorem mapGet_cons {α : Type} (p : String × α) (rest : List (String × α)) (k : String) :
    mapGet (p :: rest) k = if p.fst == k then some p.snd else mapGet rest k := by
  simp only [mapGet, List.find?_cons]
  rcases h : (p.fst == k) with _ | _ <;> simp [h]

theorem mapGet_mapSet {α : Type} (m : List (String × α)) (k k' : String) (v : α) :
    mapGet (mapSet m k v) k' = if k = k' then some v else mapGet m k' := by
  induction m with
  | nil =>
    simp only [mapSet, mapGet_cons]
    by_cases h : k = k' <;> simp [h, mapGet]
  | cons p rest ih =>
    simp only [mapSet]
    by_cases hp : p.fst = k
    · simp only [hp, beq_self_eq_true, if_true, mapGet_cons]
      by_cases h : k = k' <;> simp [h, hp, beq_iff_eq]
    · simp only [beq_iff_eq, hp, if_false, mapGet_cons, ih]
      by_cases hq : p.fst = k'
      · have : ¬ k = k' := fun he => hp (he ▸ hq)
        simp [hq, this]
      · simp [hq, beq_iff_eq]

theorem keys_mapSet {α : Type} (m : List (String × α)) (k : String) (v : α) :
    (mapSet m k v).map Prod.fst = insertSeen (m.map Prod.fst) k := by
  induction m with
  | nil => simp [mapSet, insertSeen]
  | cons p rest ih =>
    simp only [mapSet]
    by_cases hp : p.fst = k
    · simp [hp, insertSeen, List.contains_cons]
    · simp only [beq_iff_eq, hp, if_false, List.map_cons, ih, insertSeen, List.contains_cons]
      have : (k == p.fst) = false := by simp [beq_iff_eq]; exact fun he => hp he.symm
      rcases hc : (rest.map Prod.fst).contains k with _ | _ <;> simp [this, hc]

theorem mapGet_isSome_iff {α : Type} (m : List (String × α)) (k : String) :
    (mapGet m k).isSome = true ↔ k ∈ m.map Prod.fst := by
  induction m with
  | nil => simp [mapGet]
  | cons p rest ih =>
    rw [mapGet_cons]
    by_cases hp : p.fst = k
    · simp [hp]
    · have h2 : (p.fst == k) = false := by simp [beq_iff_eq]; exact hp
      have hne : ¬ k = p.fst := fun he => hp he.symm
      simp [h2, ih, hne]

theorem assoc_eq_map_keys {α : Type} :
    ∀ (m : List (String × α)) (g : String → α),
      (m.map Prod.fst).Nodup →
      (∀ k ∈ m.map Prod.fst, mapGet m k = some (g k)) →
      m = (m.map Prod.fst).map (fun k => (k, g k))
  | [], _, _, _ => rfl
  | (k₀, v₀) :: rest, g, hnd, hget => by
    have hv : g k₀ = v₀ := by
      have := hget k₀ (by simp)
      rw [mapGet_cons] at this
      simp at this
      exact this.symm
    have hnd' : (rest.map Prod.fst).Nodup := (List.nodup_cons.mp hnd).2
    have hk₀ : k₀ ∉ rest.map Prod.fst := (List.nodup_cons.mp hnd).1
    have hget' : ∀ k ∈ rest.map Prod.fst, mapGet rest k = some (g k) := by
      intro k hk
      have hne : k₀ ≠ k := fun he => hk₀ (he ▸ hk)
      have := hget k (by simp [hk])
      rw [mapGet_cons] at this
      simpa [beq_iff_eq, hne] using this
    have := assoc_eq_map_keys rest g hnd' hget'
    simp only [List.map_cons]
    rw [hv]
    exact congrArg _ this

/-! The per-code effect of one loop iteration, and the characterization of
the accumulated map. -/

/-- The effect of one `forEach` iteration on the map entry of a fixed
source currency code. -/
def applyTx (cs : List Currency) (d : DisplayCurrency) (code : String)
    (cur : Option BalanceAcc) (t : Transaction) : Option BalanceAcc :=
  if t.targetCurrency == d && t.currencyCode == code then
    let b := cur.getD
      { buys := 0
        sells := 0
        currency := cs.find? (fun c => c.code == code)
        targetCurrency := t.targetCurrency }
    some (match t.type with
      | TxType.buy => { b with buys := b.buys + t.amount }
      | TxType.sell => { b with sells := b.sells + t.amount })
  else cur

theorem step_mapGet (cs : List Currency) (d : DisplayCurrency)
    (m : List (String × BalanceAcc)) (t : Transaction) (code : String) :
    mapGet (BalanceTsx.step cs d m t) code = applyTx cs d code (mapGet m code) t := by
  by_cases h1 : t.targetCurrency = d
  · by_cases h2 : t.currencyCode = code
    · simp [BalanceTsx.step, applyTx, h1, h2, mapGet_mapSet, beq_iff_eq]
    · simp [BalanceTsx.step, applyTx, h1, h2, mapGet_mapSet, beq_iff_eq]
  · simp [BalanceTsx.step, applyTx, h1, beq_iff_eq]

theorem foldl_step_mapGet (cs : List Currency) (d : DisplayCurrency) (code : String) :
    ∀ (txs : List Transaction) (m : List (String × BalanceAcc)),
      mapGet (txs.foldl (BalanceTsx.step cs d) m) code =
        txs.foldl (applyTx cs d code) (mapGet m code)
  | [], _ => rfl
  | t :: txs, m => by
    rw [List.foldl_cons, List.foldl_cons, foldl_step_mapGet cs d code txs,
      step_mapGet]

theorem buysSum_cons (d : DisplayCurrency) (code : String) (t : Transaction)
    (txs : List Transaction) :
    buysSum d code (t :: txs) =
      (if matchesDisplay d t && t.currencyCode == code && t.type == TxType.buy
        then t.amount else 0) + buysSum d code txs := by
  simp only [buysSum, List.filter_cons]
  split <;> simp_all

theorem sellsSum_cons (d : DisplayCurrency) (code : String) (t : Transaction)
    (txs : List Transaction) :
    sellsSum d code (t :: txs) =
      (if matchesDisplay d t && t.currencyCode == code && t.type == TxType.sell
        then t.amount else 0) + sellsSum d code txs := by
  simp only [sellsSum, List.filter_cons]
  split <;> simp_all

theorem foldl_applyTx_some (cs : List Currency) (d : DisplayCurrency) (code : String) :
    ∀ (txs : List Transaction) (b : BalanceAcc),
      txs.foldl (applyTx cs d code) (some b) =
        some { b with buys := b.buys + buysSum d code txs
                      sells := b.sells + sellsSum d code txs }
  | [], b => by simp [buysSum, sellsSum]
  | t :: txs, b => by
    rw [List.foldl_cons]
    by_cases hg : (t.targetCurrency == d && t.currencyCode == code) = true
    · have hm : matchesDisplay d t = (t.targetCurrency == d) := rfl
      cases ht : t.type with
      | buy =>
        simp only [applyTx, hg, if_true, Option.getD_some, ht]
        rw [foldl_applyTx_some cs d code txs]
        apply congrArg
        ext <;> simp [buysSum_cons, sellsSum_cons, hm, hg, ht] <;> ring
      | sell =>
        simp only [applyTx, hg, if_true, Option.getD_some, ht]
        rw [foldl_applyTx_some cs d code txs]
        apply congrArg
        ext <;> simp [buysSum_cons, sellsSum_cons, hm, hg, ht] <;> ring
    · have hg' : (t.targetCurrency == d && t.currencyCode == code) = false := by
        simpa using hg
      have hm : matchesDisplay d t = (t.targetCurrency == d) := rfl
      simp only [applyTx, hg', Bool.false_eq_true, if_false]
      rw [foldl_applyTx_some cs d code txs]
      apply congrArg
      have hb : (matchesDisplay d t && t.currencyCode == code && t.type == TxType.buy)
          = false := by
        rw [hm, Bool.and_assoc] at *
        cases hx : (t.targetCurrency == d) with
        | false => simp [hx]
        | true => simp [hx] at hg' ⊢; simp [hg']
      have hs : (matchesDisplay d t && t.currencyCode == code && t.type == TxType.sell)
          = false := by
        rw [hm, Bool.and_assoc] at *
        cases hx : (t.targetCurrency == d) with
        | false => simp [hx]
        | true => simp [hx] at hg' ⊢; simp [hg']
      ext <;> simp [buysSum_cons, sellsSum_cons, hb, hs]

theorem foldl_applyTx_none (cs : List Currency) (d : DisplayCurrency) (code : String) :
    ∀ txs : List Transaction,
      txs.foldl (applyTx cs d code) none =
        if txs.any (fun t => t.targetCurrency == d && t.currencyCode == code)
          then some (refAcc cs d txs code) else none
  | [] => by simp
  | t :: txs => by
    rw [List.foldl_cons]
    by_cases hg : (t.targetCurrency == d && t.currencyCode == code) = true
    · have htc : t.targetCurrency = d := by
        have := (Bool.and_eq_true _ _).mp hg
        exact beq_iff_eq.mp this.1
      have hcc : t.currencyCode = code := by
        have := (Bool.and_eq_true _ _).mp hg
        exact beq_iff_eq.mp this.2
      have hm : matchesDisplay d t = (t.targetCurrency == d) := rfl
      have hany : ((t :: txs).any
          (fun t => t.targetCurrency == d && t.currencyCode == code)) = true := by
        simp [List.any_cons, hg]
      rw [hany]
      simp only [applyTx, hg, if_true, Option.getD_none]
      cases ht : t.type with
      | buy =>
        rw [foldl_applyTx_some cs d code txs]
        apply congrArg
        ext <;> simp [refAcc, buysSum_cons, sellsSum_cons, hm, hg, ht, htc, hcc]
      | sell =>
        rw [foldl_applyTx_some cs d code txs]
        apply congrArg
        ext <;> simp [refAcc, buysSum_cons, sellsSum_cons, hm, hg, ht, htc, hcc]
    · have hg' : (t.targetCurrency == d && t.currencyCode == code) = false := by
        simpa using hg
      have hm : matchesDisplay d t = (t.targetCurrency == d) := rfl
      have hany : ((t :: txs).any
          (fun t => t.targetCurrency == d && t.currencyCode == code)) =
          (txs.any (fun t => t.targetCurrency == d && t.currencyCode == code)) := by
        simp [List.any_cons, hg']
      have hb : (matchesDisplay d t && t.currencyCode == code && t.type == TxType.buy)
          = false := by
        rw [hm, Bool.and_assoc] at *
        cases hx : (t.targetCurrency == d) with
        | false => simp [hx]
        | true => simp [hx] at hg' ⊢; simp [hg']
      have hs : (matchesDisplay d t && t.currencyCode == code && t.type == TxType.sell)
          = false := by
        rw [hm, Bool.and_assoc] at *
        cases hx : (t.targetCurrency == d) with
        | false => simp [hx]
        | true => simp [hx] at hg' ⊢; simp [hg']
      have hacc : refAcc cs d (t :: txs) code = refAcc cs d txs code := by
        ext <;> simp [refAcc, buysSum_cons, sellsSum_cons, hb, hs]
      rw [hany, hacc]
      simp only [applyTx, hg', Bool.false_eq_true, if_false]
      exact foldl_applyTx_none cs d code txs

theorem keys_foldl_step (cs : List Currency) (d : DisplayCurrency) :
    ∀ (txs : List Transaction) (m : List (String × BalanceAcc)),
      ((txs.foldl (BalanceTsx.step cs d) m).map Prod.fst) =
        txs.foldl (fun acc t =>
          if matchesDisplay d t then insertSeen acc t.currencyCode else acc)
          (m.map Prod.fst)
  | [], _ => rfl
  | t :: txs, m => by
    rw [List.foldl_cons, List.foldl_cons, keys_foldl_step cs d txs]
    have hm : matchesDisplay d t = (t.targetCurrency == d) := rfl
    rcases hx : (t.targetCurrency == d) with _ | _
    · simp [BalanceTsx.step, hx, hm]
    · simp [BalanceTsx.step, hx, hm, keys_mapSet]

theorem contains_eq_true_iff (l : List String) (c : String) :
    l.contains c = true ↔ c ∈ l :=
  ⟨List.mem_of_elem_eq_true, List.elem_eq_true_of_mem⟩

theorem insertSeen_mem (acc : List String) (c k : String) :
    k ∈ insertSeen acc c ↔ k ∈ acc ∨ k = c := by
  unfold insertSeen
  rcases h : acc.contains c with _ | _
  · simp
  · have : c ∈ acc := (contains_eq_true_iff acc c).mp h
    constructor
    · intro hk; exact Or.inl hk
    · rintro (hk | rfl)
      · exact hk
      · exact this

theorem insertSeen_nodup (acc : List String) (c : String) (h : acc.Nodup) :
    (insertSeen acc c).Nodup := by
  unfold insertSeen
  rcases hc : acc.contains c with _ | _
  · have : c ∉ acc := by
      intro hm
      rw [(contains_eq_true_iff acc c).mpr hm] at hc
      exact Bool.true_eq_false.mp hc
    simp [List.nodup_append, h, this]
  · exact h

theorem mem_foldl_insert (d : DisplayCurrency) :
    ∀ (txs : List Transaction) (acc : List String) (code : String),
      code ∈ txs.foldl (fun acc t =>
          if matchesDisplay d t then insertSeen acc t.currencyCode else acc) acc ↔
        code ∈ acc ∨ ∃ t ∈ txs, t.targetCurrency = d ∧ t.currencyCode = code
  | [], acc, code => by simp
  | t :: txs, acc, code => by
    rw [List.foldl_cons, mem_foldl_insert d txs]
    have hm : matchesDisplay d t = (t.targetCurrency == d) := rfl
    rcases hx : (t.targetCurrency == d) with _ | _
    · have hne : ¬ t.targetCurrency = d := by simpa using hx
      simp only [hm, hx, Bool.false_eq_true, if_false, List.mem_cons]
      constructor
      · rintro (h | h)
        · exact Or.inl h
        · exact Or.inr (by
            obtain ⟨u, hu, h1, h2⟩ := h
            exact ⟨u, Or.inr hu, h1, h2⟩)
      · rintro (h | ⟨u, hu | hu, h1, h2⟩)
        · exact Or.inl h
        · exact absurd (hu ▸ h1) hne
        · exact Or.inr ⟨u, hu, h1, h2⟩
    · have heq : t.targetCurrency = d := by simpa using hx
      simp only [hm, hx, if_true, insertSeen_mem, List.mem_cons]
      constructor
      · rintro ((h | rfl) | h)
        · exact Or.inl h
        · exact Or.inr ⟨t, Or.inl rfl, heq, rfl⟩
        · obtain ⟨u, hu, h1, h2⟩ := h
          exact Or.inr ⟨u, Or.inr hu, h1, h2⟩
      · rintro (h | ⟨u, hu | hu, h1, h2⟩)
        · exact Or.inl (Or.inl h)
        · exact Or.inl (Or.inr (hu ▸ h2.symm))
        · exact Or.inr ⟨u, hu, h1, h2⟩

theorem nodup_foldl_insert (d : DisplayCurrency) :
    ∀ (txs : List Transaction) (acc : List String), acc.Nodup →
      (txs.foldl (fun acc t =>
        if matchesDisplay d t then insertSeen acc t.currencyCode else acc) acc).Nodup
  | [], _, h => h
  | t :: txs, acc, h => by
    rw [List.foldl_cons]
    rcases hx : matchesDisplay d t with _ | _
    · simp only [hx, Bool.false_eq_true, if_false]
      exact nodup_foldl_insert d txs acc h
    · simp only [hx, if_true]
      exact nodup_foldl_insert d txs _ (insertSeen_nodup acc _ h)

theorem firstSeenCodes_mem (d : DisplayCurrency) (txs : List Transaction) (code : String) :
    code ∈ firstSeenCodes d txs ↔
      ∃ t ∈ txs, t.targetCurrency = d ∧ t.currencyCode = code := by
  unfold firstSeenCodes
  rw [mem_foldl_insert d txs]
  simp

theorem firstSeenCodes_nodup (d : DisplayCurrency) (txs : List Transaction) :
    (firstSeenCodes d txs).Nodup :=
  nodup_foldl_insert d txs [] List.nodup_nil

theorem balanceMap_keys (cs : List Currency) (d : DisplayCurrency)
    (txs : List Transaction) :
    (BalanceTsx.balanceMap cs d txs).map Prod.fst = firstSeenCodes d txs := by
  unfold BalanceTsx.balanceMap firstSeenCodes
  exact keys_foldl_step cs d txs []

theorem balanceMap_eq (cs : List Currency) (d : DisplayCurrency)
    (txs : List Transaction) :
    BalanceTsx.balanceMap cs d txs =
      (firstSeenCodes d txs).map (fun code => (code, refAcc cs d txs code)) := by
  have hkeys := balanceMap_keys cs d txs
  have hnd : ((BalanceTsx.balanceMap cs d txs).map Prod.fst).Nodup := by
    rw [hkeys]; exact firstSeenCodes_nodup d txs
  have hget : ∀ k ∈ (BalanceTsx.balanceMap cs d txs).map Prod.fst,
      mapGet (BalanceTsx.balanceMap cs d txs) k = some (refAcc cs d txs k) := by
    intro k hk
    rw [hkeys] at hk
    obtain ⟨t, ht, h1, h2⟩ := (firstSeenCodes_mem d txs k).mp hk
    have hany : (txs.any (fun t => t.targetCurrency == d && t.currencyCode == k)) = true := by
      rw [List.any_eq_true]
      exact ⟨t, ht, by simp [h1, h2]⟩
    have : mapGet (BalanceTsx.balanceMap cs d txs) k =
        txs.foldl (applyTx cs d k) (mapGet [] k) := foldl_step_mapGet cs d k txs []
    rw [this]
    have hnone : mapGet ([] : List (String × BalanceAcc)) k = none := rfl
    rw [hnone, foldl_applyTx_none cs d k txs, hany]
    simp
  have := assoc_eq_map_keys (BalanceTsx.balanceMap cs d txs) (refAcc cs d txs) hnd hget
  rw [hkeys] at this
  exact this

theorem balances_eq (cs : List Currency) (d : DisplayCurrency)
    (txs : List Transaction) :
    BalanceTsx.balances cs d txs = (firstSeenCodes d txs).map (refRow cs d txs) := by
  unfold BalanceTsx.balances
  rw [balanceMap_eq, List.map_map]
  apply List.map_congr_left
  intro code _
  simp only [Function.comp_apply]
  rfl

/-- Claim C1: for every transaction list and display currency, `balances`
produces exactly one row per distinct source currency code among the
transactions matching the display currency, in first-seen insertion
order, with `buys`/`sells` the per-type sums of matching amounts and
`netTotal` equal to `buys - sells` times the rate of the first
transaction whose `currencyCode` and `targetCurrency` match the row. -/
theorem claim_C1 (cs : List Currency) (d : DisplayCurrency) (txs : List Transaction) :
    (BalanceTsx.balances cs d txs).map CurrencyBalance.code = firstSeenCodes d txs ∧
    ∀ b ∈ BalanceTsx.balances cs d txs,
      b.buys = buysSum d b.code txs ∧
      b.sells = sellsSum d b.code txs ∧
      b.netTotal = (buysSum d b.code txs - sellsSum d b.code txs) * firstRate d b.code txs := by
  constructor
  · rw [balances_eq, List.map_map]
    have : (CurrencyBalance.code ∘ refRow cs d txs) = id := by
      funext code; rfl
    rw [this, List.map_id]
  · intro b hb
    rw [balances_eq] at hb
    obtain ⟨code, _, rfl⟩ := List.mem_map.mp hb
    exact ⟨rfl, rfl, rfl⟩

/-- Witness for C1 at a concrete input: one EUR-targeted buy of 100 USD at
rate 9/10 yields the single row with code "USD". -/
theorem claim_C1_witness :
    (⟨"USD", 100, 0, List.find? (fun c => c.code == "USD") [], DisplayCurrency.EUR,
        (100 - 0) * (9 / 10)⟩ : CurrencyBalance) ∈
      BalanceTsx.balances [] DisplayCurrency.EUR
        [⟨"USD", DisplayCurrency.EUR, TxType.buy, 100, 9 / 10⟩] ∧
    (100 : ℚ) = buysSum DisplayCurrency.EUR "USD"
        [⟨"USD", DisplayCurrency.EUR, TxType.buy, 100, 9 / 10⟩] := by
  have hmem : (⟨"USD", 100, 0, List.find? (fun c => c.code == "USD") [], DisplayCurrency.EUR,
      (100 - 0) * (9 / 10)⟩ : CurrencyBalance) ∈
      BalanceTsx.balances [] DisplayCurrency.EUR
        [⟨"USD", DisplayCurrency.EUR, TxType.buy, 100, 9 / 10⟩] := by
    rw [balances_eq]
    have hbs : (TxType.buy == TxType.sell) = false := by decide
    simp only [firstSeenCodes, matchesDisplay, List.foldl_cons, List.foldl_nil]
    simp +decide [insertSeen, refRow, buysSum, sellsSum, firstRate, matchesDisplay,
      List.filter, hbs]
  refine ⟨hmem, ?_⟩
  have := (claim_C1 [] DisplayCurrency.EUR
    [⟨"USD", DisplayCurrency.EUR, TxType.buy, 100, 9 / 10⟩]).2 _ hmem
  simpa using this.1

/-- Claim C5: on the single transaction
`{currencyCode: "USD", targetCurrency: "EUR", type: "buy", amount: 100, rate: 0.9}`
with display currency EUR, the aggregator outputs exactly one row with
code "USD", buys 100, sells 0, and netTotal 90, for any currency table. -/
theorem claim_C5 (cs : List Currency) :
    (BalanceTsx.balances cs DisplayCurrency.EUR
        [⟨"USD", DisplayCurrency.EUR, TxType.buy, 100, 9 / 10⟩]).map
      (fun b => (b.code, b.buys, b.sells, b.netTotal)) = [("USD", 100, 0, 90)] := by
  rw [balances_eq]
  have hbs : (TxType.buy == TxType.sell) = false := by decide
  simp only [firstSeenCodes, matchesDisplay, List.foldl_cons, List.foldl_nil]
  simp +decide [insertSeen, refRow, buysSum, sellsSum, firstRate, matchesDisplay,
    List.filter, hbs]
  norm_num

/-! Total net balance: foldl-to-sum characterization. -/

theorem foldl_add_eq_sum (f : Transaction → ℚ) :
    ∀ (txs : List Transaction) (a : ℚ),
      txs.foldl (fun total t => total + f t) a = a + (txs.map f).sum
  | [], a => by simp
  | t :: txs, a => by
    rw [List.foldl_cons, foldl_add_eq_sum f txs]
    simp [add_assoc]

theorem totalNetBalanceDZD_eq_sum (txs : List Transaction) :
    BalanceTsx.totalNetBalanceDZD txs = (txs.map (fun t => signedAmount t * t.rate)).sum := by
  have : BalanceTsx.totalNetBalanceDZD txs =
      txs.foldl (fun total t => total + signedAmount t * t.rate) 0 := rfl
  rw [this, foldl_add_eq_sum]
  simp

theorem part000_dzd_eq (d : DisplayCurrency) (txs : List Transaction) :
    (Part000.totalNetBalance d txs).dzd = BalanceTsx.totalNetBalanceDZD txs := rfl

/-- Claim C2: the base-currency net total is the sum over all transactions
of the signed amount times the transaction's own rate, and does not depend
on the selected display currency (in either variant). -/
theorem claim_C2 (txs : List Transaction) (d d' : DisplayCurrency) :
    BalanceTsx.totalNetBalanceDZD txs = (txs.map (fun t => signedAmount t * t.rate)).sum ∧
    (Part000.totalNetBalance d txs).dzd =
      (txs.map (fun t => signedAmount t * t.rate)).sum ∧
    (Part000.totalNetBalance d txs).dzd = (Part000.totalNetBalance d' txs).dzd := by
  refine ⟨totalNetBalanceDZD_eq_sum txs, ?_, ?_⟩
  · rw [part000_dzd_eq]; exact totalNetBalanceDZD_eq_sum txs
  · rw [part000_dzd_eq, part000_dzd_eq]

/-- Claim C7: the net-total color is the success style exactly when
`netTotal` is strictly positive, and the error style otherwise; in
particular a `netTotal` of exactly zero gets the error style. -/
theorem claim_C7 (q : ℚ) :
    (netTotalStyle q = ColorStyle.success ↔ 0 < q) ∧
    (netTotalStyle q = ColorStyle.error ↔ ¬ 0 < q) ∧
    netTotalStyle 0 = ColorStyle.error := by
  unfold netTotalStyle
  refine ⟨?_, ?_, by norm_num⟩
  · by_cases h : q > 0 <;> simp [h]
  · by_cases h : q > 0 <;> simp [h]

/-- Claim C9: toggling maps USD to EUR and EUR to USD, is an involution,
leaves the transaction list unchanged, and the screen afterwards is
rendered with the new display currency over the same transactions. -/
theorem claim_C9 (cs : List Currency) (s : ScreenState) :
    toggleDisplayCurrency DisplayCurrency.USD = DisplayCurrency.EUR ∧
    toggleDisplayCurrency DisplayCurrency.EUR = DisplayCurrency.USD ∧
    (toggleAction s).transactions = s.transactions ∧
    toggleAction (toggleAction s) = s ∧
    BalanceTsx.balances cs (toggleAction s).displayCurrency (toggleAction s).transactions =
      BalanceTsx.balances cs (toggleDisplayCurrency s.displayCurrency) s.transactions ∧
    renderScreen cs (toggleAction s).displayCurrency (toggleAction s).transactions =
      renderScreen cs (toggleDisplayCurrency s.displayCurrency) s.transactions := by
  refine ⟨rfl, rfl, rfl, ?_, rfl, rfl⟩
  cases s with
  | mk txs d => cases d <;> rfl

theorem balances_nil_of_no_match (cs : List Currency) (d : DisplayCurrency)
    (txs : List Transaction) (h : ∀ t ∈ txs, t.targetCurrency ≠ d) :
    BalanceTsx.balances cs d txs = [] := by
  rw [balances_eq]
  have : firstSeenCodes d txs = [] := by
    rw [List.eq_nil_iff_forall_not_mem]
    intro c hc
    obtain ⟨t, ht, h1, _⟩ := (firstSeenCodes_mem d txs c).mp hc
    exact h t ht h1
  rw [this]
  rfl

/-- Claim C6: with no transactions the view shows the generic empty state;
with transactions but none in the selected display currency it shows the
no-transactions-in-currency message while the summary card still carries
the base-currency total over all transactions. -/
theorem claim_C6 (cs : List Currency) (d : DisplayCurrency) (txs : List Transaction) :
    (txs = [] → renderScreen cs d txs = ScreenBody.emptyState) ∧
    (txs ≠ [] → (∀ t ∈ txs, t.targetCurrency ≠ d) →
      renderScreen cs d txs =
        ScreenBody.withSummary (BalanceTsx.totalNetBalanceDZD txs)
          (BalanceArea.noTransactionsMessage d)) := by
  constructor
  · intro h; subst h; rfl
  · intro hne hall
    have hlen : 0 < txs.length := List.length_pos.mpr hne
    have hbal := balances_nil_of_no_match cs d txs hall
    unfold renderScreen
    simp [hlen, hbal]

/-- Witness for C6 at concrete inputs: the empty list renders the empty
state, and a list with only a USD-targeted transaction viewed in EUR
renders the message with the full DZD total. -/
theorem claim_C6_witness :
    renderScreen [] DisplayCurrency.EUR [] = ScreenBody.emptyState ∧
    renderScreen [] DisplayCurrency.EUR
        [⟨"USD", DisplayCurrency.USD, TxType.buy, 100, 2⟩] =
      ScreenBody.withSummary
        (BalanceTsx.totalNetBalanceDZD [⟨"USD", DisplayCurrency.USD, TxType.buy, 100, 2⟩])
        (BalanceArea.noTransactionsMessage DisplayCurrency.EUR) := by
  constructor
  · exact (claim_C6 [] DisplayCurrency.EUR []).1 rfl
  · refine (claim_C6 [] DisplayCurrency.EUR _).2 (by simp) ?_
    intro t ht
    rw [List.mem_singleton] at ht
    subst ht
    simp

/-- Claim C8 counterexample: with a currency table containing only "USD",
a transaction in code "XYZ" produces a row whose currency lookup is
`undefined`, and rendering the row list throws a TypeError instead of
rendering defensively. -/
theorem claim_C8_counterexample :
    renderAllItems DisplayCurrency.EUR
      (BalanceTsx.balances [⟨"USD", "US Dollar", "us"⟩] DisplayCurrency.EUR
        [⟨"XYZ", DisplayCurrency.EUR, TxType.buy, 100, 9 / 10⟩]) =
      Except.error JsError.typeError := by
  rw [balances_eq]
  have hbs : (TxType.buy == TxType.sell) = false := by decide
  simp only [firstSeenCodes, matchesDisplay, List.foldl_cons, List.foldl_nil]
  simp +decide [insertSeen, refRow, buysSum, sellsSum, firstRate, matchesDisplay,
    List.filter, hbs, renderAllItems, renderBalanceItem, getField, Bind.bind, Except.bind]

theorem renderAllItems_ok_iff (d : DisplayCurrency) :
    ∀ l : List CurrencyBalance,
      (∃ out, renderAllItems d l = Except.ok out) ↔
        ∀ b ∈ l, b.currency.isSome = true
  | [] => by simp [renderAllItems]
  | b :: l => by
    rcases hc : b.currency with _ | c
    · constructor
      · rintro ⟨out, hout⟩
        simp [renderAllItems, renderBalanceItem, getField, hc, Bind.bind, Except.bind] at hout
      · intro h
        have := h b (by simp)
        rw [hc] at this
        simp at this
    · constructor
      · rintro ⟨out, hout⟩
        intro x hx
        rcases List.mem_cons.mp hx with rfl | hx'
        · simp [hc]
        · rcases hrest : renderAllItems d l with e | outs
          · simp [renderAllItems, renderBalanceItem, getField, hc, hrest, Bind.bind,
              Except.bind] at hout
          · exact ((renderAllItems_ok_iff d l).mp ⟨outs, hrest⟩) x hx'
      · intro h
        have hrest : ∃ outs, renderAllItems d l = Except.ok outs :=
          (renderAllItems_ok_iff d l).mpr (fun x hx => h x (List.mem_cons_of_mem b hx))
        obtain ⟨outs, houts⟩ := hrest
        rcases hr : renderBalanceItem d b with e | r
        · simp [renderBalanceItem, getField, hc, Bind.bind, Except.bind] at hr
        · refine ⟨r :: outs, ?_⟩
          simp [renderAllItems, hr, houts, Bind.bind, Except.bind]

/-- Claim C8, amended: rendering the row list raises no error exactly when
every row's `currencyCode` has an entry in the currency table; a row whose
code is missing makes the render throw a TypeError (the undefined
reference is not rendered defensively). -/
theorem claim_C8 (cs : List Currency) (d : DisplayCurrency) (txs : List Transaction) :
    (∃ out, renderAllItems d (BalanceTsx.balances cs d txs) = Except.ok out) ↔
      ∀ b ∈ BalanceTsx.balances cs d txs, b.currency.isSome = true :=
  renderAllItems_ok_iff d (BalanceTsx.balances cs d txs)

/-! Partition of the signed matching sum over the distinct codes (C3). -/

theorem sum_filter_split (p : Transaction → Bool) (f : Transaction → ℚ) :
    ∀ l : List Transaction,
      ((l.filter p).map f).sum + ((l.filter (fun t => !(p t))).map f).sum = (l.map f).sum
  | [] => by simp
  | t :: l => by
    rcases hp : p t with _ | _ <;>
      simp [List.filter_cons, hp, ← sum_filter_split p f l] <;> ring

theorem netSum_eq_filter_sum (d : DisplayCurrency) (c : String) :
    ∀ txs : List Transaction,
      buysSum d c txs - sellsSum d c txs =
        (((matchingTxs d txs).filter (fun t => t.currencyCode == c)).map signedAmount).sum
  | [] => by simp [buysSum, sellsSum, matchingTxs]
  | t :: txs => by
    have ih := netSum_eq_filter_sum d c txs
    rw [buysSum_cons, sellsSum_cons]
    rcases hm : matchesDisplay d t with _ | _
    · have hstep : matchingTxs d (t :: txs) = matchingTxs d txs := by
        simp [matchingTxs, List.filter_cons, hm]
      rw [hstep]
      simp only [hm, Bool.false_and, Bool.and_false, if_false, Bool.false_eq_true]
      linarith [ih]
    · have hstep : matchingTxs d (t :: txs) = t :: matchingTxs d txs := by
        simp [matchingTxs, List.filter_cons, hm]
      rw [hstep, List.filter_cons]
      rcases hc : (t.currencyCode == c) with _ | _
      · simp only [hm, hc, Bool.true_and, Bool.false_and, Bool.and_false, if_false,
          Bool.false_eq_true]
        linarith [ih]
      · cases ht : t.type with
        | buy =>
          have hb : (t.type == TxType.buy) = true := by simp [ht]
          have hs : (t.type == TxType.sell) = false := by simp [ht]
          simp [hm, hc, hb, hs, signedAmount, ht]
          linarith [ih]
        | sell =>
          have hb : (t.type == TxType.buy) = false := by simp [ht]
          have hs : (t.type == TxType.sell) = true := by simp [ht]
          simp [hm, hc, hb, hs, signedAmount, ht]
          linarith [ih]

theorem filter_code_of_ne (k k' : String) (h : ¬ k' = k) :
    ∀ ms : List Transaction,
      (ms.filter (fun t => !(t.currencyCode == k))).filter (fun t => t.currencyCode == k') =
        ms.filter (fun t => t.currencyCode == k')
  | [] => rfl
  | t :: ms => by
    rcases hc : (t.currencyCode == k') with _ | _
    · rcases hk : (t.currencyCode == k) with _ | _ <;>
        simp [List.filter_cons, hc, hk, filter_code_of_ne k k' h ms]
    · have hk : (t.currencyCode == k) = false := by
        have : t.currencyCode = k' := beq_iff_eq.mp hc
        simp [this, h]
      simp [List.filter_cons, hc, hk, filter_code_of_ne k k' h ms]

theorem sum_partition_by_code :
    ∀ (ks : List String), ks.Nodup →
      ∀ ms : List Transaction, (∀ t ∈ ms, t.currencyCode ∈ ks) →
        ((ks.map (fun k =>
          ((ms.filter (fun t => t.currencyCode == k)).map signedAmount).sum)).sum) =
          (ms.map signedAmount).sum
  | [], _, ms, hcov => by
    have : ms = [] := by
      rw [List.eq_nil_iff_forall_not_mem]
      intro t ht
      simpa using hcov t ht
    simp [this]
  | k :: ks, hnd, ms, hcov => by
    have hk : k ∉ ks := (List.nodup_cons.mp hnd).1
    have hnd' : ks.Nodup := (List.nodup_cons.mp hnd).2
    have hcov' : ∀ t ∈ ms.filter (fun t => !(t.currencyCode == k)), t.currencyCode ∈ ks := by
      intro t ht
      rw [List.mem_filter] at ht
      have h1 := hcov t ht.1
      have h2 : ¬ t.currencyCode = k := by
        intro he
        rw [beq_iff_eq.mpr he] at ht
        simpa using ht.2
      rcases List.mem_cons.mp h1 with he | hm
      · exact absurd he h2
      · exact hm
    have hmap : ks.map (fun k' =>
        ((ms.filter (fun t => t.currencyCode == k')).map signedAmount).sum) =
        ks.map (fun k' =>
          (((ms.filter (fun t => !(t.currencyCode == k))).filter
            (fun t => t.currencyCode == k')).map signedAmount).sum) := by
      apply List.map_congr_left
      intro k' hk'
      have hne : ¬ k' = k := fun he => hk (he ▸ hk')
      rw [filter_code_of_ne k k' hne ms]
    rw [List.map_cons, List.sum_cons, hmap,
      sum_partition_by_code ks hnd' _ hcov',
      sum_filter_split (fun t => t.currencyCode == k) signedAmount ms]

/-- Claim C3: the sum over all output rows of `buys - sells` equals the
signed amount sum of exactly the transactions matching the display
currency (no double counting), while the base-currency total sums over
all transactions regardless of display currency. -/
theorem claim_C3 (cs : List Currency) (d : DisplayCurrency) (txs : List Transaction) :
    ((BalanceTsx.balances cs d txs).map (fun b => b.buys - b.sells)).sum =
      ((matchingTxs d txs).map signedAmount).sum ∧
    BalanceTsx.totalNetBalanceDZD txs =
      (txs.map (fun t => signedAmount t * t.rate)).sum := by
  refine ⟨?_, totalNetBalanceDZD_eq_sum txs⟩
  rw [balances_eq, List.map_map]
  have hpt : ((fun b : CurrencyBalance => b.buys - b.sells) ∘ refRow cs d txs) =
      fun code => buysSum d code txs - sellsSum d code txs := by
    funext code; rfl
  rw [hpt]
  have hcov : ∀ t ∈ matchingTxs d txs, t.currencyCode ∈ firstSeenCodes d txs := by
    intro t ht
    rw [matchingTxs, List.mem_filter] at ht
    exact (firstSeenCodes_mem d txs t.currencyCode).mpr
      ⟨t, ht.1, beq_iff_eq.mp ht.2, rfl⟩
  calc ((firstSeenCodes d txs).map (fun code => buysSum d code txs - sellsSum d code txs)).sum
      = ((firstSeenCodes d txs).map (fun code =>
          (((matchingTxs d txs).filter (fun t => t.currencyCode == code)).map
            signedAmount).sum)).sum := by
        apply congrArg
        apply List.map_congr_left
        intro code _
        exact netSum_eq_filter_sum d code txs
    _ = ((matchingTxs d txs).map signedAmount).sum :=
        sum_partition_by_code (firstSeenCodes d txs) (firstSeenCodes_nodup d txs)
          (matchingTxs d txs) hcov

/-! Average rates and the display-currency conversion (C4). -/

theorem collectRates_aux :
    ∀ (txs : List Transaction) (a b : List ℚ),
      txs.foldl (fun rates t =>
        if t.targetCurrency == DisplayCurrency.EUR then (rates.fst ++ [t.rate], rates.snd)
        else if t.targetCurrency == DisplayCurrency.USD then (rates.fst, rates.snd ++ [t.rate])
        else rates) (a, b) =
      (a ++ (matchingTxs DisplayCurrency.EUR txs).map Transaction.rate,
       b ++ (matchingTxs DisplayCurrency.USD txs).map Transaction.rate)
  | [], a, b => by simp [matchingTxs]
  | t :: txs, a, b => by
    rw [List.foldl_cons]
    cases hx : t.targetCurrency with
    | EUR =>
      have h1 : matchingTxs DisplayCurrency.EUR (t :: txs) =
          t :: matchingTxs DisplayCurrency.EUR txs := by
        simp [matchingTxs, List.filter_cons, matchesDisplay, hx]
      have h2 : matchingTxs DisplayCurrency.USD (t :: txs) =
          matchingTxs DisplayCurrency.USD txs := by
        simp [matchingTxs, List.filter_cons, matchesDisplay, hx]
      simp only [hx]
      rw [show ((DisplayCurrency.EUR == DisplayCurrency.EUR) = true) from rfl]
      simp only [if_true, collectRates_aux txs]
      rw [h1, h2]
      simp
    | USD =>
      have h1 : matchingTxs DisplayCurrency.EUR (t :: txs) =
          matchingTxs DisplayCurrency.EUR txs := by
        simp [matchingTxs, List.filter_cons, matchesDisplay, hx]
      have h2 : matchingTxs DisplayCurrency.USD (t :: txs) =
          t :: matchingTxs DisplayCurrency.USD txs := by
        simp [matchingTxs, List.filter_cons, matchesDisplay, hx]
      simp only [hx]
      rw [show ((DisplayCurrency.USD == DisplayCurrency.EUR) = false) from rfl,
        show ((DisplayCurrency.USD == DisplayCurrency.USD) = true) from rfl]
      simp only [Bool.false_eq_true, if_false, if_true, collectRates_aux txs]
      rw [h1, h2]
      simp

theorem collectRates_eq (txs : List Transaction) :
    Part000.collectRates txs =
      ((matchingTxs DisplayCurrency.EUR txs).map Transaction.rate,
       (matchingTxs DisplayCurrency.USD txs).map Transaction.rate) := by
  unfold Part000.collectRates
  rw [collectRates_aux txs [] []]
  simp

/-- The rate picked by `totalNetBalance` for the selected display
currency, as a function of the matching transactions. -/
theorem averageRates_sel (d : DisplayCurrency) (txs : List Transaction) :
    (match d with
      | DisplayCurrency.EUR => (Part000.averageRates txs).eur
      | DisplayCurrency.USD => (Part000.averageRates txs).usd) =
      (if 0 < (matchingTxs d txs).length then
        ((matchingTxs d txs).map Transaction.rate).sum / ((matchingTxs d txs).length : ℚ)
      else 0) := by
  cases d <;> simp [Part000.averageRates, collectRates_eq]

/-- Claim C4: in the second variant the display-currency equivalent of
the base total is the total divided by the arithmetic mean of the rates
of the transactions matching the display currency, and zero when there
are none (rates are positive per the data model). -/
theorem claim_C4 (d : DisplayCurrency) (txs : List Transaction)
    (hr : ∀ t ∈ txs, 0 < t.rate) :
    (matchingTxs d txs = [] → (Part000.totalNetBalance d txs).display = 0) ∧
    (matchingTxs d txs ≠ [] →
      (Part000.totalNetBalance d txs).display =
        (Part000.totalNetBalance d txs).dzd /
          (((matchingTxs d txs).map Transaction.rate).sum /
            ((matchingTxs d txs).length : ℚ))) := by
  have hsel := averageRates_sel d txs
  constructor
  · intro hnil
    unfold Part000.totalNetBalance
    simp only [hsel, hnil]
    simp
  · intro hne
    have hlen : 0 < (matchingTxs d txs).length := List.length_pos.mpr hne
    have hsum : 0 < ((matchingTxs d txs).map Transaction.rate).sum := by
      apply List.sum_pos
      · intro x hx
        rw [List.mem_map] at hx
        obtain ⟨t, ht, rfl⟩ := hx
        exact hr t (List.mem_of_mem_filter ht)
      · simp [hne]
    have hpos : 0 < ((matchingTxs d txs).map Transaction.rate).sum /
        ((matchingTxs d txs).length : ℚ) := by
      apply div_pos hsum
      exact_mod_cast hlen
    unfold Part000.totalNetBalance
    simp only [hsel, hlen, if_true]
    rw [if_neg (ne_of_gt hpos)]

/-- Witness for C4: one EUR-targeted buy of 100 at rate 2 (positive
rates), so the converted total is the DZD total divided by the mean. -/
theorem claim_C4_witness :
    (Part000.totalNetBalance DisplayCurrency.EUR
        [⟨"USD", DisplayCurrency.EUR, TxType.buy, 100, 2⟩]).display =
      (Part000.totalNetBalance DisplayCurrency.EUR
        [⟨"USD", DisplayCurrency.EUR, TxType.buy, 100, 2⟩]).dzd /
        (((matchingTxs DisplayCurrency.EUR
            [⟨"USD", DisplayCurrency.EUR, TxType.buy, 100, 2⟩]).map Transaction.rate).sum /
          ((matchingTxs DisplayCurrency.EUR
            [⟨"USD", DisplayCurrency.EUR, TxType.buy, 100, 2⟩]).length : ℚ)) := by
  apply (claim_C4 DisplayCurrency.EUR _ ?_).2 ?_
  · intro t ht
    rw [List.mem_singleton] at ht
    subst ht
    norm_num
  · simp [matchingTxs, matchesDisplay]

/-- Claim C10: the two source variants compute identical per-currency
balance lists and identical base-currency net totals. -/
theorem claim_C10 (cs : List Currency) (d : DisplayCurrency) (txs : List Transaction) :
    Part000.balances cs d txs = BalanceTsx.balances cs d txs ∧
    (Part000.totalNetBalance d txs).dzd = BalanceTsx.totalNetBalanceDZD txs := by
  constructor
  · have hstep : Part000.step cs d = BalanceTsx.step cs d := rfl
    unfold Part000.balances BalanceTsx.balances
    unfold Part000.balanceMap BalanceTsx.balanceMap
    rw [hstep]
  · rfl
